import Mathlib

/-
Verification of the claude-local-proxy OpenAI translation layer
(src/openai.ts): the tool-call reconciler, the request mapper, the
non-streaming response mapper and the streaming response translator,
embedded shallowly as executable Lean functions.
-/

namespace ClaudeLocalProxy

/-! ### Characters and string helpers

Character constants are spelled via `Char.ofNat` codepoints.
`charsContains` embeds JavaScript `String.prototype.includes`,
`joinSep` embeds `Array.prototype.join`. -/

def quoteChar : Char := Char.ofNat 34

def apostropheChar : Char := Char.ofNat 39

def backslashChar : Char := Char.ofNat 92

def lbraceChar : Char := Char.ofNat 123

def rbraceChar : Char := Char.ofNat 125

/-- `charsStart pat l` is true when `pat` is an initial segment of `l`. -/
def charsStart : List Char → List Char → Bool
  | [], _ => true
  | _ :: _, [] => false
  | p :: ps, c :: cs => p == c && charsStart ps cs

/-- `charsContains pat l` is true when `pat` occurs contiguously in `l`. -/
def charsContains (pat : List Char) : List Char → Bool
  | [] => charsStart pat []
  | c :: rest => charsStart pat (c :: rest) || charsContains pat rest

/-- JavaScript `s.includes(pat)`. -/
def strIncludes (s pat : String) : Bool := charsContains pat.data s.data

/-- JavaScript `Array.prototype.join(sep)`. -/
def joinSep (sep : String) : List String → String
  | [] => ""
  | [s] => s
  | s :: rest => s ++ sep ++ joinSep sep rest

/-! ### JSON values

JSON numbers are modelled as integers; none of the behaviour settled
here depends on fractional numeric literals. -/

inductive Json where
  | null : Json
  | bool (b : Bool) : Json
  | num (n : Int) : Json
  | str (s : String) : Json
  | arr (elements : List Json) : Json
  | obj (fields : List (String × Json)) : Json

/-! ### JSON.parse

A strict recursive-descent JSON parser over the character list, with a
fuel argument for termination; the fuel supplied by `Json.parse` is
always sufficient, and exhaustion simply reads as a parse failure.
Single-quoted strings are rejected, exactly as `JSON.parse` rejects
them — the behaviour the single-quote repair path in the source
compensates for. -/

def isWsChar (c : Char) : Bool := c = ' ' || c = Char.ofNat 10 || c = Char.ofNat 9 || c = Char.ofNat 13

def skipWs : List Char → List Char
  | [] => []
  | c :: rest => if isWsChar c then skipWs rest else c :: rest

def escapeCode (c : Char) : Option Char :=
  if c = quoteChar then some quoteChar
  else if c = backslashChar then some backslashChar
  else if c = '/' then some '/'
  else if c = 'n' then some (Char.ofNat 10)
  else if c = 't' then some (Char.ofNat 9)
  else if c = 'r' then some (Char.ofNat 13)
  else if c = 'b' then some (Char.ofNat 8)
  else if c = 'f' then some (Char.ofNat 12)
  else none

def parseStringBody : List Char → Option (String × List Char)
  | [] => none
  | c :: rest =>
    if c = quoteChar then some ("", rest)
    else if c = backslashChar then
      match rest with
      | [] => none
      | e :: rest2 =>
        match escapeCode e with
        | none => none
        | some d =>
          match parseStringBody rest2 with
          | none => none
          | some (s, r) => some (String.mk (d :: s.data), r)
    else
      match parseStringBody rest with
      | none => none
      | some (s, r) => some (String.mk (c :: s.data), r)

def digitsToNatAux (acc : Nat) : List Char → Nat
  | [] => acc
  | c :: rest => digitsToNatAux (acc * 10 + (c.toNat - 48)) rest

def parseNumberChars (cs : List Char) : Option (Int × List Char) :=
  let signSplit : Bool × List Char :=
    match cs with
    | c :: rest => if c = '-' then (true, rest) else (false, cs)
    | [] => (false, cs)
  let ds := signSplit.2.takeWhile Char.isDigit
  if ds.isEmpty then none
  else
    let n : Int := Int.ofNat (digitsToNatAux 0 ds)
    some (if signSplit.1 then -n else n, signSplit.2.drop ds.length)

def litStart : List Char → List Char → Option (List Char)
  | [], cs => some cs
  | _ :: _, [] => none
  | e :: es, c :: cs => if e = c then litStart es cs else none

mutual

def parseVal : Nat → List Char → Option (Json × List Char)
  | 0, _ => none
  | fuel + 1, cs =>
    match skipWs cs with
    | [] => none
    | c :: rest =>
      if c = quoteChar then
        match parseStringBody rest with
        | some (s, r) => some (.str s, r)
        | none => none
      else if c = '[' then
        match skipWs rest with
        | d :: r2 => if d = ']' then some (.arr [], r2) else parseArrayItems fuel (skipWs rest) []
        | [] => none
      else if c = lbraceChar then
        match skipWs rest with
        | d :: r2 => if d = rbraceChar then some (.obj [], r2) else parseObjectFields fuel (skipWs rest) []
        | [] => none
      else if c = 'n' then
        match litStart ['u', 'l', 'l'] rest with
        | some r => some (.null, r)
        | none => none
      else if c = 't' then
        match litStart ['r', 'u', 'e'] rest with
        | some r => some (.bool true, r)
        | none => none
      else if c = 'f' then
        match litStart ['a', 'l', 's', 'e'] rest with
        | some r => some (.bool false, r)
        | none => none
      else if c = '-' || c.isDigit then
        match parseNumberChars (c :: rest) with
        | some (n, r) => some (.num n, r)
        | none => none
      else none

def parseArrayItems : Nat → List Char → List Json → Option (Json × List Char)
  | 0, _, _ => none
  | fuel + 1, cs, acc =>
    match parseVal fuel cs with
    | none => none
    | some (v, r) =>
      match skipWs r with
      | [] => none
      | c :: r2 =>
        if c = ',' then parseArrayItems fuel r2 (acc ++ [v])
        else if c = ']' then some (.arr (acc ++ [v]), r2)
        else none

def parseObjectFields : Nat → List Char → List (String × Json) → Option (Json × List Char)
  | 0, _, _ => none
  | fuel + 1, cs, acc =>
    match skipWs cs with
    | [] => none
    | c :: rest =>
      if c = quoteChar then
        match parseStringBody rest with
        | none => none
        | some (k, r) =>
          match skipWs r with
          | [] => none
          | d :: r2 =>
            if d = ':' then
              match parseVal fuel r2 with
              | none => none
              | some (v, r3) =>
                match skipWs r3 with
                | [] => none
                | e :: r4 =>
                  if e = ',' then parseObjectFields fuel r4 (acc ++ [(k, v)])
                  else if e = rbraceChar then some (.obj (acc ++ [(k, v)]), r4)
                  else none
            else none
      else none

end

/-- `JSON.parse`: parse the whole string, requiring only trailing
whitespace after the value. -/
def Json.parse (s : String) : Option Json :=
  match parseVal (3 * s.length + 16) s.data with
  | some (j, r) => if (skipWs r).isEmpty then some j else none
  | none => none

/-! ### JSON.stringify -/

def escapeChars : List Char → List Char
  | [] => []
  | c :: rest =>
    (if c = quoteChar then [backslashChar, quoteChar]
     else if c = backslashChar then [backslashChar, backslashChar]
     else if c = Char.ofNat 10 then [backslashChar, 'n']
     else if c = Char.ofNat 9 then [backslashChar, 't']
     else if c = Char.ofNat 13 then [backslashChar, 'r']
     else [c]) ++ escapeChars rest

def escapeString (s : String) : String := String.mk (escapeChars s.data)

def quoteStr : String := "\""

def lbraceStr : String := "\x7b"

def rbraceStr : String := "\x7d"

mutual

/-- `JSON.stringify` (compact form, as the default JavaScript call). -/
def Json.render : Json → String
  | .null => "null"
  | .bool true => "true"
  | .bool false => "false"
  | .num n => toString n
  | .str s => quoteStr ++ escapeString s ++ quoteStr
  | .arr elements => "[" ++ renderList elements ++ "]"
  | .obj fields => lbraceStr ++ renderFields fields ++ rbraceStr

def renderList : List Json → String
  | [] => ""
  | [j] => Json.render j
  | j :: rest => Json.render j ++ "," ++ renderList rest

def renderFields : List (String × Json) → String
  | [] => ""
  | [(k, v)] => quoteStr ++ escapeString k ++ quoteStr ++ ":" ++ Json.render v
  | (k, v) :: rest =>
    quoteStr ++ escapeString k ++ quoteStr ++ ":" ++ Json.render v ++ "," ++ renderFields rest

end

/-! ### Canonical (Claude) message model

`ToolResultContent` embeds the `string | object` union of a
`tool_result.content` field; `is_error` is optional, and the source
tests it with `=== true`. -/

inductive Role where
  | user : Role
  | assistant : Role
deriving DecidableEq

/-- `message.role === "assistant" ? "assistant" : "user"`. -/
def roleString : Role → String
  | .assistant => "assistant"
  | .user => "user"

inductive ToolResultContent where
  | str (s : String) : ToolResultContent
  | json (j : Json) : ToolResultContent

/-- `typeof content.content === "string" ? content.content : JSON.stringify(content.content)`. -/
def toolResultContentString : ToolResultContent → String
  | .str s => s
  | .json j => j.render

inductive ContentBlock where
  | text (text : String) : ContentBlock
  | toolUse (id : String) (name : String) (input : Json) : ContentBlock
  | toolResult (tool_use_id : String) (content : ToolResultContent) (is_error : Option Bool) : ContentBlock

inductive MessageContent where
  | str (s : String) : MessageContent
  | blocks (blocks : List ContentBlock) : MessageContent

structure ClaudeMessage where
  role : Role
  content : MessageContent

/-! ### Tool-call reconciler (`cleanIncompleteToolCalls`) -/

def resultIdsOfMessage (m : ClaudeMessage) : List String :=
  match m.content with
  | .str _ => []
  | .blocks bs =>
    bs.filterMap fun b =>
      match b with
      | .toolResult tid _ _ => some tid
      | _ => none

/-- The ids of every `tool_result` block in the conversation, in order of
appearance (the reconciler's `toolResultIds` set). -/
def toolResultIds : List ClaudeMessage → List String
  | [] => []
  | m :: rest => resultIdsOfMessage m ++ toolResultIds rest

def isToolUseBlock : ContentBlock → Bool
  | .toolUse _ _ _ => true
  | _ => false

def isIncompleteToolUse (ids : List String) : ContentBlock → Bool
  | .toolUse id _ _ => !(ids.contains id)
  | _ => false

/-- The reconciler's per-message filter predicate: plain-string messages
and messages without a `tool_use` are kept; a message is dropped when it
carries at least one `tool_use` whose id has no `tool_result` anywhere. -/
def keepMessage (ids : List String) (m : ClaudeMessage) : Bool :=
  match m.content with
  | .str _ => true
  | .blocks bs =>
    if !(bs.any isToolUseBlock) then true
    else if (bs.filter (isIncompleteToolUse ids)).length > 0 then false
    else true

/-- `cleanIncompleteToolCalls`: drop every message containing a
`tool_use` block with no matching `tool_result` in the whole input. -/
def cleanIncompleteToolCalls (messages : List ClaudeMessage) : List ClaudeMessage :=
  messages.filter (keepMessage (toolResultIds messages))

/-! ### Request mapper (`convertMessages`) -/

structure OpenAIFunctionCall where
  name : String
  arguments : String
deriving DecidableEq

/-- A provider tool call; the constant discriminator `type: "function"`
carried alongside in the source is omitted. -/
structure OpenAIToolCall where
  id : String
  function : OpenAIFunctionCall
deriving DecidableEq

structure OpenAIMessage where
  role : String
  content : Option String
  tool_calls : Option (List OpenAIToolCall)
  tool_call_id : Option String

structure ToolResultEntry where
  tool_call_id : String
  content : String

/-- The mutable per-message accumulators of the block loop:
`textContents`, `toolCalls`, `toolResults`. -/
structure BlockAcc where
  textContents : List String
  toolCalls : List OpenAIToolCall
  toolResults : List ToolResultEntry

def interruptedLine (name : String) : String :=
  "[User interrupted: " ++ name ++ " operation was cancelled by user]"

def interruptedMarker : String := "Interrupted by user"

def feedbackLine : String :=
  "[User provided feedback: The previous action was interrupted. Please pay attention to the new user input and adjust your approach accordingly.]"

def toolErrorLine (content : String) : String :=
  "[Tool execution error: " ++ content ++ "]"

/-- Successful `tool_result` ids: every result whose `is_error` is not
`true` (the source collects them over the original, uncleaned input). -/
def successfulToolResultIds : List ClaudeMessage → List String
  | [] => []
  | m :: rest =>
    (match m.content with
     | .str _ => []
     | .blocks bs =>
       bs.filterMap fun b =>
         match b with
         | .toolResult tid _ isErr => if isErr = some true then none else some tid
         | _ => none) ++ successfulToolResultIds rest

/-- One iteration of the `switch` over a message's content blocks. -/
def processBlock (successIds : List String) (acc : BlockAcc) : ContentBlock → BlockAcc
  | .text t => ⟨acc.textContents ++ [t], acc.toolCalls, acc.toolResults⟩
  | .toolUse id name input =>
    if successIds.contains id then
      ⟨acc.textContents, acc.toolCalls ++ [⟨id, ⟨name, input.render⟩⟩], acc.toolResults⟩
    else
      ⟨acc.textContents ++ [interruptedLine name], acc.toolCalls, acc.toolResults⟩
  | .toolResult tid c isErr =>
    if isErr = some true then
      let e := toolResultContentString c
      ⟨acc.textContents ++ [if strIncludes e interruptedMarker then feedbackLine else toolErrorLine e],
       acc.toolCalls, acc.toolResults⟩
    else
      ⟨acc.textContents, acc.toolCalls, acc.toolResults ++ [⟨tid, toolResultContentString c⟩]⟩

/-- Map one (already reconciled) canonical message to its provider
messages: the combined text/tool-call message when non-empty, followed by
one `role: "tool"` message per successful tool result. -/
def convertOneMessage (successIds : List String) (m : ClaudeMessage) : List OpenAIMessage :=
  match m.content with
  | .str s => [⟨roleString m.role, some s, none, none⟩]
  | .blocks bs =>
    let acc := bs.foldl (processBlock successIds) ⟨[], [], []⟩
    let newline : String := String.mk [Char.ofNat 10]
    let main : List OpenAIMessage :=
      if acc.textContents.length > 0 || acc.toolCalls.length > 0 then
        [⟨roleString m.role,
          if acc.textContents.length > 0 then some (joinSep newline acc.textContents) else none,
          if acc.toolCalls.length > 0 then some acc.toolCalls else none,
          none⟩]
      else []
    main ++ acc.toolResults.map fun tr => ⟨"tool", some tr.content, none, some tr.tool_call_id⟩

def convertMessagesAux (successIds : List String) : List ClaudeMessage → List OpenAIMessage
  | [] => []
  | m :: rest => convertOneMessage successIds m ++ convertMessagesAux successIds rest

/-- `convertMessages`: reconcile the history, collect the successful
result ids from the original input, then map each surviving message.
(The source's `toolCallMap` is written but never read, and the debug
logging is side-effect only; both are omitted.) -/
def convertMessages (claudeMessages : List ClaudeMessage) : List OpenAIMessage :=
  convertMessagesAux (successfulToolResultIds claudeMessages) (cleanIncompleteToolCalls claudeMessages)

/-! ### Non-streaming response mapper (`convertNormalResponse`) -/

structure OpenAIResponseMessage where
  content : Option String
  tool_calls : Option (List OpenAIToolCall)

structure OpenAIChoice where
  message : OpenAIResponseMessage
  finish_reason : Option String

structure OpenAIUsage where
  prompt_tokens : Nat
  completion_tokens : Nat
deriving DecidableEq

structure OpenAIResponse where
  choices : Option (List OpenAIChoice)
  usage : Option OpenAIUsage

inductive StopReason where
  | end_turn : StopReason
  | max_tokens : StopReason
  | tool_use : StopReason
deriving DecidableEq

structure ClaudeUsage where
  input_tokens : Nat
  output_tokens : Nat
deriving DecidableEq

/-- The canonical response body. The generated `id` and the constant
`type: "message"` / `role: "assistant"` fields are environment noise and
are omitted; `stop_reason = none` models the field being absent from the
serialized body. -/
structure ClaudeResponse where
  content : List ContentBlock
  stop_reason : Option StopReason
  usage : Option ClaudeUsage

/-- JavaScript `s.replace(/'/g, String.fromCharCode(34))`: the
single-quote repair applied before the second parse attempt. -/
def repairSingleQuotes (s : String) : String :=
  String.mk (s.data.map fun c => if c = apostropheChar then quoteChar else c)

/-- Argument decoding of a non-streaming tool call: strict
`JSON.parse`, then a retry with single quotes replaced by double
quotes, then the empty object. A falsy (empty) arguments string is
first replaced by the literal two-character object string. -/
def parseToolArguments (arguments : String) : Json :=
  let argsString := if arguments = "" then "\x7b\x7d" else arguments
  match Json.parse argsString with
  | some j => j
  | none =>
    match Json.parse (repairSingleQuotes argsString) with
    | some j => j
    | none => .obj []

def toolUseBlockOfCall (tc : OpenAIToolCall) : ContentBlock :=
  .toolUse tc.id tc.function.name (parseToolArguments tc.function.arguments)

def usageOf (openaiData : OpenAIResponse) : Option ClaudeUsage :=
  openaiData.usage.map fun u => ⟨u.prompt_tokens, u.completion_tokens⟩

/-- `convertNormalResponse` on the decoded provider body. The
`if (message.tool_calls)` test in the source is a JavaScript truthiness
test: a present-but-empty `tool_calls` array is truthy, which the
`Option` match below mirrors. A falsy (empty) `message.content` adds no
text block. -/
def convertNormalResponse (openaiData : OpenAIResponse) : ClaudeResponse :=
  match openaiData.choices with
  | some (choice :: _) =>
    let msg := choice.message
    let textBlocks : List ContentBlock :=
      match msg.content with
      | some s => if s = "" then [] else [.text s]
      | none => []
    (match msg.tool_calls with
     | some calls =>
       ⟨textBlocks ++ calls.map toolUseBlockOfCall, some .tool_use, usageOf openaiData⟩
     | none =>
       ⟨textBlocks,
        some (if choice.finish_reason = some "length" then .max_tokens else .end_turn),
        usageOf openaiData⟩)
  | _ => ⟨[], none, usageOf openaiData⟩

/-! ### Streaming response translator (`convertStreamResponse`)

The per-frame callback (lines 329-368 of the source) is embedded as
`convertStreamChunk` over the decoded frame. The canonical events are
abstracted by the index they are addressed to. An `Except.error` result
models a thrown exception (`JSON.parse` on an unparseable arguments
string has no handler in the callback). -/

structure StreamFunction where
  name : Option String
  arguments : Option String

structure StreamToolCall where
  function : Option StreamFunction

structure StreamDelta where
  content : Option String
  tool_calls : Option (List StreamToolCall)

structure StreamChoice where
  delta : StreamDelta

structure OpenAIStreamResponse where
  choices : Option (List StreamChoice)

inductive CanonEvent where
  | textDelta (index : Nat) (text : String) : CanonEvent
  | toolUseDelta (index : Nat) (name : String) (args : Json) : CanonEvent

/-- Modelled from the spec: `utils.processTextPart` is not among the
sources; per sections 4.4 and 6 it emits the canonical content-block
delta for the text fragment, addressed to the given text block index. -/
def processTextPart (text : String) (index : Nat) : List CanonEvent :=
  [.textDelta index text]

/-- Modelled from the spec: `utils.processToolUsePart` is not among the
sources; per sections 4.4 and 6 it emits the canonical tool-use delta
for the named call, addressed to the given tool block index. -/
def processToolUsePart (name : String) (args : Json) (index : Nat) : List CanonEvent :=
  [.toolUseDelta index name args]

/-- The `for (const toolCall of delta.tool_calls)` loop. The source
guards each call with `toolCall.function?.name &&
toolCall.function?.arguments`, a truthiness test that also skips empty
strings; `JSON.parse(toolCall.function.arguments)` is unguarded, so an
unparseable arguments string throws (modelled as `Except.error` carrying
the offending string). -/
def processStreamToolCalls : List StreamToolCall → Nat → Except String (List CanonEvent × Nat)
  | [], index => .ok ([], index)
  | tc :: rest, index =>
    match tc.function with
    | none => processStreamToolCalls rest index
    | some fn =>
      match fn.name, fn.arguments with
      | some nm, some args =>
        if nm = "" then processStreamToolCalls rest index
        else if args = "" then processStreamToolCalls rest index
        else
          match Json.parse args with
          | none => .error args
          | some j =>
            match processStreamToolCalls rest (index + 1) with
            | .ok (evs, index2) => .ok (processToolUsePart nm j index ++ evs, index2)
            | .error e => .error e
      | _, _ => processStreamToolCalls rest index

/-- The stream callback: frames with no choices yield `none` (indices
untouched); a text delta is processed first and bumps the text index; a
tool-call list is then processed and bumps the tool index per emitted
call. -/
def convertStreamChunk (openaiData : OpenAIStreamResponse) (textBlockIndex toolUseBlockIndex : Nat) :
    Except String (Option (List CanonEvent × Nat × Nat)) :=
  match openaiData.choices with
  | none => .ok none
  | some [] => .ok none
  | some (choice :: _) =>
    let delta := choice.delta
    let textStep : List CanonEvent × Nat :=
      match delta.content with
      | some s => if s = "" then ([], textBlockIndex) else (processTextPart s textBlockIndex, textBlockIndex + 1)
      | none => ([], textBlockIndex)
    match delta.tool_calls with
    | none => .ok (some (textStep.1, textStep.2, toolUseBlockIndex))
    | some calls =>
      match processStreamToolCalls calls toolUseBlockIndex with
      | .ok (evs, toolIndex) => .ok (some (textStep.1 ++ evs, textStep.2, toolIndex))
      | .error e => .error e

/-- Modelled from the spec: `utils.processProviderStream` is not among
the sources; per section 4.4 it consumes the provider frames one at a
time in arrival order, threading the two cursor indices through the
callback, concatenating the emitted canonical events, leaving the
cursor untouched on a `null` callback result, and propagating a thrown
exception, which aborts the stream. -/
def processProviderStream : List OpenAIStreamResponse → Nat → Nat → Except String (List CanonEvent)
  | [], _, _ => .ok []
  | frame :: rest, textIndex, toolIndex =>
    match convertStreamChunk frame textIndex toolIndex with
    | .error e => .error e
    | .ok none => processProviderStream rest textIndex toolIndex
    | .ok (some (evs, textIndex2, toolIndex2)) =>
      match processProviderStream rest textIndex2 toolIndex2 with
      | .ok evs2 => .ok (evs ++ evs2)
      | .error e => .error e

def convertStreamResponse (frames : List OpenAIStreamResponse) : Except String (List CanonEvent) :=
  processProviderStream frames 0 0

/-! ### Top-level response dispatch (`convertToClaudeResponse`) -/

/-- The body of a provider response, carried pre-decoded; the claims
settled here only exercise bodies matching their declared content type. -/
inductive ProviderBody where
  | json (data : OpenAIResponse) : ProviderBody
  | stream (frames : List OpenAIStreamResponse) : ProviderBody

structure ProviderResponse where
  status : Nat
  contentType : Option String
  body : ProviderBody

inductive TranslatedResponse where
  | passthrough (response : ProviderResponse) : TranslatedResponse
  | normal (response : ClaudeResponse) (status : Nat) : TranslatedResponse
  | stream (result : Except String (List CanonEvent)) : TranslatedResponse

/-- `Response.ok`: status in the 2xx range. -/
def responseOk (status : Nat) : Bool := 200 ≤ status && status < 300

/-- `convertToClaudeResponse`: a non-2xx response is returned as-is;
otherwise dispatch on whether the `content-type` header (defaulted to
the empty string) contains `text/event-stream`. -/
def convertToClaudeResponse (r : ProviderResponse) : TranslatedResponse :=
  if !(responseOk r.status) then .passthrough r
  else
    let contentType := r.contentType.getD ""
    if strIncludes contentType "text/event-stream" then
      .stream (convertStreamResponse (match r.body with | .stream frames => frames | .json _ => []))
    else
      .normal (convertNormalResponse (match r.body with | .json d => d | .stream _ => ⟨none, none⟩)) r.status

/-! ### Declarative characterizations and concrete inputs used in the
theorem statements -/

/-- The text line a block contributes to the message's textual
accumulation, if any. -/
def lineOfBlock (S : List String) : ContentBlock → Option String
  | .text t => some t
  | .toolUse id name _ => if S.contains id then none else some (interruptedLine name)
  | .toolResult _ c isErr =>
    if isErr = some true then
      some (if strIncludes (toolResultContentString c) interruptedMarker then feedbackLine
            else toolErrorLine (toolResultContentString c))
    else none

/-- The provider tool call a block contributes, if any: exactly the
`tool_use` blocks whose id has a successful result. -/
def callOfBlock (S : List String) : ContentBlock → Option OpenAIToolCall
  | .toolUse id name input => if S.contains id then some ⟨id, ⟨name, input.render⟩⟩ else none
  | _ => none

/-- The `role: "tool"` payload a block contributes, if any: exactly the
non-error `tool_result` blocks. -/
def resultOfBlock : ContentBlock → Option ToolResultEntry
  | .toolResult tid c isErr => if isErr = some true then none else some ⟨tid, toolResultContentString c⟩
  | _ => none

/-- The text block indices of the canonical events, in emission order. -/
def textIndices (evs : List CanonEvent) : List Nat :=
  evs.filterMap fun e => match e with | .textDelta i _ => some i | _ => none

/-- The tool block indices of the canonical events, in emission order. -/
def toolIndices (evs : List CanonEvent) : List Nat :=
  evs.filterMap fun e => match e with | .toolUseDelta i _ _ => some i | _ => none

def newlineString : String := String.mk [Char.ofNat 10]

/-- The spec's example conversation: a user text and an assistant
`ToolUse` with no `ToolResult` anywhere. -/
def exC1 : List ClaudeMessage :=
  [⟨.user, .str "hi"⟩,
   ⟨.assistant, .blocks [.toolUse "t1" "get_weather" (.obj [("city", .str "Paris")])]⟩]

def exC1CompleteMsg : ClaudeMessage := ⟨.assistant, .blocks [.toolUse "t1" "f" (.obj [])]⟩

def exC1Complete : List ClaudeMessage :=
  [exC1CompleteMsg, ⟨.user, .blocks [.toolResult "t1" (.str "ok") none]⟩]

/-- A conversation where the message removed by the first reconciler
pass (it carries the unanswered `tool_use` t2) itself carries the
`tool_result` for t1, which the first message's `tool_use` depends on. -/
def exC2 : List ClaudeMessage :=
  [⟨.assistant, .blocks [.toolUse "t1" "f" (.obj [])]⟩,
   ⟨.user, .blocks [.toolResult "t1" (.str "ok") none, .toolUse "t2" "g" (.obj [])]⟩]

def exC2Separated : List ClaudeMessage :=
  [⟨.assistant, .blocks [.toolUse "t1" "f" (.obj [])]⟩,
   ⟨.user, .blocks [.toolResult "t1" (.str "ok") none]⟩]

def exFrameText : OpenAIStreamResponse := ⟨some [⟨⟨some "Hi", none⟩⟩]⟩

def exFrameTool : OpenAIStreamResponse :=
  ⟨some [⟨⟨none, some [⟨some ⟨some "f", some "\x7b\x7d"⟩⟩]⟩⟩]⟩

/-- A successful response whose first choice has `finish_reason =
"length"` and a present-but-empty `tool_calls` list. -/
def exC4 : OpenAIResponse := ⟨some [⟨⟨none, some []⟩, some "length"⟩], none⟩

def exC5Frame : OpenAIStreamResponse :=
  ⟨some [⟨⟨none, some [⟨some ⟨some "f", some "not json"⟩⟩]⟩⟩]⟩

def exC6 : OpenAIResponse :=
  ⟨some [⟨⟨none, some [⟨"call_1", ⟨"f", "\x7b'a': 1\x7d"⟩⟩]⟩, some "tool_calls"⟩], none⟩

def exC7 : ProviderResponse := ⟨404, some "application/json", .json ⟨none, none⟩⟩

/-- One message holding an unanswered `tool_use` next to an erroring
`tool_result`: the reconciler drops the whole message. -/
def exC8 : List ClaudeMessage :=
  [⟨.user, .blocks [.toolUse "t1" "f" (.obj []), .toolResult "t2" (.str "oops") (some true)]⟩]

def exC8Survivor : List ClaudeMessage :=
  [⟨.assistant, .blocks [.toolResult "t3" (.str "boom") (some true), .text "note"]⟩]

def exC9Assistant : ClaudeMessage :=
  ⟨.assistant, .blocks [.toolUse "t1" "read_file" (.obj [("path", .str "a")]),
                        .toolUse "t2" "write_file" (.obj [])]⟩

def exC9 : List ClaudeMessage :=
  [exC9Assistant,
   ⟨.user, .blocks [.toolResult "t1" (.str "data") none, .toolResult "t2" (.str "denied") (some true)]⟩]

def exC10 : OpenAIResponse := ⟨none, some ⟨3, 5⟩⟩

/-! ## Helper lemmas -/

theorem strData_append (s t : String) : (s ++ t).data = s.data ++ t.data := by
  cases s
  cases t
  rfl

theorem charsStart_append (p l r : List Char) (h : charsStart p l = true) :
    charsStart p (l ++ r) = true := by
  induction p generalizing l with
  | nil => simp [charsStart]
  | cons a as ih =>
    cases l with
    | nil => simp [charsStart] at h
    | cons c cs =>
      simp only [charsStart, Bool.and_eq_true] at h
      simp only [List.cons_append, charsStart, Bool.and_eq_true]
      exact ⟨h.1, ih cs h.2⟩

theorem charsStart_self_append (p r : List Char) : charsStart p (p ++ r) = true := by
  induction p with
  | nil => simp [charsStart]
  | cons a as ih => simp [charsStart, ih]

theorem charsContains_of_start (p l : List Char) (h : charsStart p l = true) :
    charsContains p l = true := by
  cases l with
  | nil => simpa [charsContains] using h
  | cons c cs => simp [charsContains, h]

theorem charsContains_nil_pat (l : List Char) : charsContains [] l = true := by
  cases l with
  | nil => rfl
  | cons c cs => simp [charsContains, charsStart]

theorem charsContains_append_right (p l r : List Char) (h : charsContains p l = true) :
    charsContains p (l ++ r) = true := by
  induction l with
  | nil =>
    cases p with
    | nil => simpa using charsContains_nil_pat r
    | cons a as => simp [charsContains, charsStart] at h
  | cons c cs ih =>
    simp only [charsContains, Bool.or_eq_true] at h
    simp only [List.cons_append, charsContains, Bool.or_eq_true]
    rcases h with h | h
    · exact Or.inl (charsStart_append p (c :: cs) r h)
    · exact Or.inr (ih h)

theorem charsContains_append_left (p l r : List Char) (h : charsContains p r = true) :
    charsContains p (l ++ r) = true := by
  induction l with
  | nil => simpa using h
  | cons c cs ih =>
    simp only [List.cons_append, charsContains, Bool.or_eq_true]
    exact Or.inr ih

theorem charsContains_surround (x y p : List Char) : charsContains p (x ++ (p ++ y)) = true := by
  apply charsContains_append_left
  apply charsContains_append_right
  exact charsContains_of_start p p (by simpa using charsStart_self_append p [])

theorem strIncludes_append_right (s t pat : String) (h : strIncludes s pat = true) :
    strIncludes (s ++ t) pat = true := by
  unfold strIncludes at h ⊢
  rw [strData_append]
  exact charsContains_append_right _ _ _ h

theorem strIncludes_append_left (s t pat : String) (h : strIncludes t pat = true) :
    strIncludes (s ++ t) pat = true := by
  unfold strIncludes at h ⊢
  rw [strData_append]
  exact charsContains_append_left _ _ _ h

theorem strIncludes_wrap (l pat r : String) : strIncludes (l ++ pat ++ r) pat = true := by
  unfold strIncludes
  rw [strData_append, strData_append]
  rw [List.append_assoc]
  exact charsContains_surround l.data r.data pat.data

/-- Occurrence in one joined part gives occurrence in the `join`ed
string. -/
theorem strIncludes_joinSep (sep : String) :
    ∀ (parts : List String) (x pat : String), x ∈ parts → strIncludes x pat = true →
      strIncludes (joinSep sep parts) pat = true := by
  intro parts
  induction parts with
  | nil => intro x pat hx; simp at hx
  | cons s rest ih =>
    intro x pat hx hinc
    cases rest with
    | nil =>
      rcases List.mem_cons.mp hx with rfl | hx2
      · simpa [joinSep] using hinc
      · simp at hx2
    | cons s2 rest2 =>
      rcases List.mem_cons.mp hx with rfl | hx2
      · show strIncludes (x ++ sep ++ joinSep sep (s2 :: rest2)) pat = true
        exact strIncludes_append_right _ _ _ (strIncludes_append_right _ _ _ hinc)
      · show strIncludes (s ++ sep ++ joinSep sep (s2 :: rest2)) pat = true
        rw [String.append_assoc]
        exact strIncludes_append_left _ _ _ (strIncludes_append_left _ _ _ (ih x pat hx2 hinc))

theorem strIncludes_interrupted (nm : String) :
    strIncludes (interruptedLine nm) ("User interrupted: " ++ nm ++ " operation was cancelled by user") = true := by
  have e1 : ("[User interrupted: " : String).data =
      ("[" : String).data ++ ("User interrupted: " : String).data := rfl
  have e2 : (" operation was cancelled by user]" : String).data =
      (" operation was cancelled by user" : String).data ++ ("]" : String).data := rfl
  have base := charsContains_surround ("[" : String).data ("]" : String).data
      (("User interrupted: " : String).data ++
        (nm.data ++ (" operation was cancelled by user" : String).data))
  unfold strIncludes interruptedLine
  simp only [strData_append, e1, e2, List.append_assoc]
  simpa [List.append_assoc] using base

theorem strIncludes_toolError (e : String) :
    strIncludes (toolErrorLine e) ("Tool execution error: " ++ e) = true := by
  have e1 : ("[Tool execution error: " : String).data =
      ("[" : String).data ++ ("Tool execution error: " : String).data := rfl
  have base := charsContains_surround ("[" : String).data ("]" : String).data
      (("Tool execution error: " : String).data ++ e.data)
  unfold strIncludes toolErrorLine
  simp only [strData_append, e1, List.append_assoc]
  simpa [List.append_assoc] using base

theorem strIncludes_feedback :
    strIncludes feedbackLine "The previous action was interrupted" = true := by
  have h : feedbackLine =
      "[User provided feedback: " ++ "The previous action was interrupted" ++
        ". Please pay attention to the new user input and adjust your approach accordingly.]" := rfl
  rw [h]
  exact strIncludes_wrap _ _ _

/-- The block loop is the three `filterMap`s: its accumulators collect
exactly the per-block text lines, selected tool calls and successful
tool results, in block order. -/
theorem foldl_processBlock (S : List String) (bs : List ContentBlock) (acc : BlockAcc) :
    bs.foldl (processBlock S) acc =
      ⟨acc.textContents ++ bs.filterMap (lineOfBlock S),
       acc.toolCalls ++ bs.filterMap (callOfBlock S),
       acc.toolResults ++ bs.filterMap resultOfBlock⟩ := by
  induction bs generalizing acc with
  | nil => simp
  | cons b rest ih =>
    cases b with
    | text t =>
      rw [List.foldl_cons, ih]
      simp [processBlock, lineOfBlock, callOfBlock, resultOfBlock, List.filterMap_cons]
    | toolUse id name input =>
      rw [List.foldl_cons, ih]
      by_cases h : id ∈ S
      · simp [processBlock, lineOfBlock, callOfBlock, resultOfBlock, List.filterMap_cons, h]
      · simp [processBlock, lineOfBlock, callOfBlock, resultOfBlock, List.filterMap_cons, h]
    | toolResult tid c isErr =>
      rw [List.foldl_cons, ih]
      by_cases h : isErr = some true
      · simp [processBlock, lineOfBlock, callOfBlock, resultOfBlock, List.filterMap_cons, h]
      · simp [processBlock, lineOfBlock, callOfBlock, resultOfBlock, List.filterMap_cons, h]

/-- Closed form of `convertOneMessage` on a block-sequence message. -/
theorem convertOneMessage_blocks (S : List String) (m : ClaudeMessage) (bs : List ContentBlock)
    (hc : m.content = .blocks bs) :
    convertOneMessage S m =
      (if (bs.filterMap (lineOfBlock S)).length > 0 || (bs.filterMap (callOfBlock S)).length > 0 then
        [⟨roleString m.role,
          if (bs.filterMap (lineOfBlock S)).length > 0 then
            some (joinSep newlineString (bs.filterMap (lineOfBlock S)))
          else none,
          if (bs.filterMap (callOfBlock S)).length > 0 then some (bs.filterMap (callOfBlock S))
          else none,
          none⟩]
      else []) ++
        (bs.filterMap resultOfBlock).map (fun tr => ⟨"tool", some tr.content, none, some tr.tool_call_id⟩) := by
  unfold convertOneMessage
  rw [hc]
  dsimp only
  rw [foldl_processBlock]
  rfl

theorem mem_convertMessagesAux_of (S : List String) (l : List ClaudeMessage) (m : ClaudeMessage)
    (out : OpenAIMessage) (hm : m ∈ l) (hout : out ∈ convertOneMessage S m) :
    out ∈ convertMessagesAux S l := by
  induction l with
  | nil => simp at hm
  | cons hd tl ih =>
    rcases List.mem_cons.mp hm with rfl | hm2
    · exact List.mem_append_left _ hout
    · exact List.mem_append_right _ (ih hm2)

theorem exists_of_mem_convertMessagesAux (S : List String) (l : List ClaudeMessage)
    (out : OpenAIMessage) (hout : out ∈ convertMessagesAux S l) :
    ∃ m ∈ l, out ∈ convertOneMessage S m := by
  induction l with
  | nil => simp [convertMessagesAux] at hout
  | cons hd tl ih =>
    rcases List.mem_append.mp hout with h | h
    · exact ⟨hd, List.mem_cons_self _ _, h⟩
    · obtain ⟨m, hm, hmem⟩ := ih h
      exact ⟨m, List.mem_cons_of_mem _ hm, hmem⟩

theorem mem_successfulToolResultIds (l : List ClaudeMessage) (m : ClaudeMessage)
    (bs : List ContentBlock) (tid : String) (c : ToolResultContent) (isErr : Option Bool)
    (hm : m ∈ l) (hc : m.content = .blocks bs) (hb : ContentBlock.toolResult tid c isErr ∈ bs)
    (herr : isErr ≠ some true) : tid ∈ successfulToolResultIds l := by
  induction l with
  | nil => simp at hm
  | cons hd tl ih =>
    rcases List.mem_cons.mp hm with rfl | hm2
    · show tid ∈ _ ++ successfulToolResultIds tl
      apply List.mem_append_left
      rw [hc]
      exact List.mem_filterMap.mpr ⟨_, hb, by simp [herr]⟩
    · show tid ∈ _ ++ successfulToolResultIds tl
      exact List.mem_append_right _ (ih hm2)

theorem range'_glue : ∀ (k k2 t : Nat), List.range' t k ++ List.range' (t + k) k2 = List.range' t (k + k2) := by
  intro k
  induction k with
  | zero => intro k2 t; simp
  | succ k ih =>
    intro k2 t
    have h1 : t + (k + 1) = (t + 1) + k := by omega
    have h2 : k + 1 + k2 = (k + k2) + 1 := by omega
    rw [h1, h2, List.range'_succ, List.range'_succ, List.cons_append, ih]

theorem textIndices_append (a b : List CanonEvent) :
    textIndices (a ++ b) = textIndices a ++ textIndices b := by
  simp [textIndices, List.filterMap_append]

theorem toolIndices_append (a b : List CanonEvent) :
    toolIndices (a ++ b) = toolIndices a ++ toolIndices b := by
  simp [toolIndices, List.filterMap_append]

/-- Every successful run of the tool-call loop emits only tool-use
deltas, addressed to consecutive indices starting at the incoming tool
index, which the loop advances by their number. -/
theorem processStreamToolCalls_indices :
    ∀ (calls : List StreamToolCall) (u : Nat) (evs : List CanonEvent) (u2 : Nat),
      processStreamToolCalls calls u = .ok (evs, u2) →
      ∃ m, u2 = u + m ∧ toolIndices evs = List.range' u m ∧ textIndices evs = [] := by
  intro calls
  induction calls with
  | nil =>
    intro u evs u2 h
    simp only [processStreamToolCalls, Except.ok.injEq, Prod.mk.injEq] at h
    exact ⟨0, by omega, by simp [← h.1, toolIndices], by simp [← h.1, textIndices]⟩
  | cons tc rest ih =>
    intro u evs u2 h
    rw [processStreamToolCalls] at h
    cases hfn : tc.function with
    | none => rw [hfn] at h; exact ih u evs u2 h
    | some fn =>
      rw [hfn] at h
      dsimp only at h
      cases hnm : fn.name with
      | none => rw [hnm] at h; exact ih u evs u2 h
      | some nm =>
        cases hargs : fn.arguments with
        | none => rw [hnm, hargs] at h; exact ih u evs u2 h
        | some args =>
          rw [hnm, hargs] at h
          dsimp only at h
          by_cases hnme : nm = ""
          · rw [if_pos hnme] at h; exact ih u evs u2 h
          · rw [if_neg hnme] at h
            by_cases hargse : args = ""
            · rw [if_pos hargse] at h; exact ih u evs u2 h
            · rw [if_neg hargse] at h
              cases hp : Json.parse args with
              | none => rw [hp] at h; dsimp only at h; exact Except.noConfusion h
              | some j =>
                rw [hp] at h
                dsimp only at h
                cases hr : processStreamToolCalls rest (u + 1) with
                | error e => rw [hr] at h; dsimp only at h; exact Except.noConfusion h
                | ok p =>
                  obtain ⟨evs2, u3⟩ := p
                  rw [hr] at h
                  dsimp only at h
                  simp only [Except.ok.injEq, Prod.mk.injEq] at h
                  obtain ⟨m, hm, htool, htext⟩ := ih (u + 1) evs2 u3 hr
                  refine ⟨m + 1, by omega, ?_, ?_⟩
                  · rw [← h.1, toolIndices_append, htool]
                    have hone : toolIndices (processToolUsePart nm j u) = [u] := rfl
                    rw [hone, List.range'_succ]
                    rfl
                  · rw [← h.1, textIndices_append, htext]
                    rfl

/-- Every non-null successful callback result advances the two indices
by the numbers of text and tool events emitted, which are addressed to
consecutive indices starting at the incoming cursor. -/
theorem convertStreamChunk_indices (f : OpenAIStreamResponse) (t u : Nat)
    (evs : List CanonEvent) (t2 u2 : Nat)
    (h : convertStreamChunk f t u = .ok (some (evs, t2, u2))) :
    ∃ k m, t2 = t + k ∧ u2 = u + m ∧
      textIndices evs = List.range' t k ∧ toolIndices evs = List.range' u m := by
  rw [convertStreamChunk] at h
  cases hch : f.choices with
  | none => rw [hch] at h; cases h
  | some cl =>
    cases cl with
    | nil => rw [hch] at h; cases h
    | cons choice rest =>
      rw [hch] at h
      dsimp only at h
      have htext : ∃ tevs tk, tk ≤ 1 ∧ textIndices tevs = List.range' t tk ∧ toolIndices tevs = [] ∧
          (match choice.delta.content with
           | some s => if s = "" then ([], t) else (processTextPart s t, t + 1)
           | none => ([], t)) = (tevs, t + tk) := by
        cases hc : choice.delta.content with
        | none => exact ⟨[], 0, by omega, by simp [textIndices], by simp [toolIndices], by simp⟩
        | some s =>
          by_cases hs : s = ""
          · exact ⟨[], 0, by omega, by simp [textIndices], by simp [toolIndices], by simp [hs]⟩
          · refine ⟨processTextPart s t, 1, by omega, ?_, ?_, by simp [hs]⟩
            · simp [processTextPart, textIndices, List.range'_succ]
            · simp [processTextPart, toolIndices]
      obtain ⟨tevs, tk, _, htIdx, htTool, hstep⟩ := htext
      rw [hstep] at h
      cases htc : choice.delta.tool_calls with
      | none =>
        rw [htc] at h
        dsimp only at h
        simp only [Except.ok.injEq, Option.some.injEq, Prod.mk.injEq] at h
        refine ⟨tk, 0, by omega, by omega, ?_, ?_⟩
        · rw [← h.1, htIdx]
        · rw [← h.1, htTool]
          simp
      | some calls =>
        rw [htc] at h
        dsimp only at h
        cases hpt : processStreamToolCalls calls u with
        | error e => rw [hpt] at h; dsimp only at h; exact Except.noConfusion h
        | ok p =>
          obtain ⟨cevs, u3⟩ := p
          rw [hpt] at h
          dsimp only at h
          simp only [Except.ok.injEq, Option.some.injEq, Prod.mk.injEq] at h
          obtain ⟨m, hm, hcTool, hcText⟩ := processStreamToolCalls_indices calls u cevs u3 hpt
          refine ⟨tk, m, by omega, by omega, ?_, ?_⟩
          · rw [← h.1, textIndices_append, htIdx, hcText, List.append_nil]
          · rw [← h.1, toolIndices_append, htTool, hcTool, List.nil_append]

/-- Across a whole successful stream the text and tool indices are the
consecutive runs starting at the initial cursor. -/
theorem processProviderStream_indices :
    ∀ (frames : List OpenAIStreamResponse) (t u : Nat) (evs : List CanonEvent),
      processProviderStream frames t u = .ok evs →
      ∃ k m, textIndices evs = List.range' t k ∧ toolIndices evs = List.range' u m := by
  intro frames
  induction frames with
  | nil =>
    intro t u evs h
    simp only [processProviderStream, Except.ok.injEq] at h
    exact ⟨0, 0, by simp [← h, textIndices], by simp [← h, toolIndices]⟩
  | cons f rest ih =>
    intro t u evs h
    rw [processProviderStream] at h
    cases hc : convertStreamChunk f t u with
    | error e => rw [hc] at h; cases h
    | ok o =>
      cases o with
      | none => rw [hc] at h; exact ih t u evs h
      | some p =>
        obtain ⟨evs1, t2, u2⟩ := p
        rw [hc] at h
        dsimp only at h
        cases hr : processProviderStream rest t2 u2 with
        | error e => rw [hr] at h; dsimp only at h; exact Except.noConfusion h
        | ok evs2 =>
          rw [hr] at h
          dsimp only at h
          simp only [Except.ok.injEq] at h
          obtain ⟨k1, m1, ht1, hu1, hti1, htl1⟩ := convertStreamChunk_indices f t u evs1 t2 u2 hc
          obtain ⟨k2, m2, hti2, htl2⟩ := ih t2 u2 evs2 hr
          refine ⟨k1 + k2, m1 + m2, ?_, ?_⟩
          · rw [← h, textIndices_append, hti1, hti2, ht1, range'_glue]
          · rw [← h, toolIndices_append, htl1, htl2, hu1, range'_glue]


theorem keepMessage_false (ids : List String) (m : ClaudeMessage)
    (h : keepMessage ids m = false) :
    ∃ bs, m.content = .blocks bs ∧ bs.any isToolUseBlock = true := by
  unfold keepMessage at h
  cases hc : m.content with
  | str s => rw [hc] at h; cases h
  | blocks bs =>
    rw [hc] at h
    dsimp only at h
    cases hany : bs.any isToolUseBlock with
    | false => rw [hany] at h; simp at h
    | true => exact ⟨bs, rfl, hany⟩

theorem toolResultIds_filter (p : ClaudeMessage → Bool) (l : List ClaudeMessage)
    (hp : ∀ m ∈ l, p m = false → resultIdsOfMessage m = []) :
    toolResultIds (l.filter p) = toolResultIds l := by
  induction l with
  | nil => rfl
  | cons m rest ih =>
    have hprest : ∀ m2 ∈ rest, p m2 = false → resultIdsOfMessage m2 = [] :=
      fun m2 hm2 => hp m2 (List.mem_cons_of_mem _ hm2)
    cases hpm : p m with
    | false =>
      have hid : resultIdsOfMessage m = [] := hp m (List.mem_cons_self _ _) hpm
      simp [List.filter_cons, hpm, toolResultIds, hid, ih hprest]
    | true =>
      simp [List.filter_cons, hpm, toolResultIds, ih hprest]

/-! ## Claims -/

/-- C1: every `tool_use` block surviving the reconciler has its id among
the `tool_result.tool_use_id` values collected over the whole input; in
particular, the spec's example conversation loses its assistant message
entirely (sibling blocks included) and the provider payload built from
it carries no tool call. -/
theorem c1_reconciler_removes_dangling :
    (∀ (msgs : List ClaudeMessage) (m : ClaudeMessage) (bs : List ContentBlock)
        (id nm : String) (inp : Json),
        m ∈ cleanIncompleteToolCalls msgs → m.content = .blocks bs →
        ContentBlock.toolUse id nm inp ∈ bs → (toolResultIds msgs).contains id = true) ∧
    cleanIncompleteToolCalls exC1 = [⟨.user, .str "hi"⟩] ∧
    convertMessages exC1 = [⟨"user", some "hi", none, none⟩] := by
  refine ⟨?_, rfl, rfl⟩
  intro msgs m bs id nm inp hm hc hb
  have hkeep : keepMessage (toolResultIds msgs) m = true := (List.mem_filter.mp hm).2
  unfold keepMessage at hkeep
  rw [hc] at hkeep
  dsimp only at hkeep
  have hany : bs.any isToolUseBlock = true := List.any_eq_true.mpr ⟨_, hb, rfl⟩
  rw [hany] at hkeep
  simp only [Bool.not_true, Bool.false_eq_true, if_false] at hkeep
  by_cases hid : (toolResultIds msgs).contains id = true
  · exact hid
  · exfalso
    have hfmem : ContentBlock.toolUse id nm inp ∈ bs.filter (isIncompleteToolUse (toolResultIds msgs)) := by
      refine List.mem_filter.mpr ⟨hb, ?_⟩
      simp only [isIncompleteToolUse]
      simpa using hid
    have hpos : (bs.filter (isIncompleteToolUse (toolResultIds msgs))).length > 0 :=
      List.length_pos.mpr (List.ne_nil_of_mem hfmem)
    rw [if_pos hpos] at hkeep
    cases hkeep

/-- C1 witness: in a conversation where the single `tool_use` t1 has a
`tool_result`, the kept assistant message's call id is in the collected
result-id set. -/
theorem c1_reconciler_removes_dangling_witness :
    (toolResultIds exC1Complete).contains "t1" = true := by
  refine c1_reconciler_removes_dangling.1 exC1Complete exC1CompleteMsg
    [ContentBlock.toolUse "t1" "f" (.obj [])] "t1" "f" (.obj []) ?_ rfl ?_
  · rw [show cleanIncompleteToolCalls exC1Complete =
      [exC1CompleteMsg, ⟨.user, .blocks [.toolResult "t1" (.str "ok") none]⟩] from rfl]
    exact List.mem_cons_self _ _
  · exact List.mem_cons_self _ _

/-- C2 counterexample: on `exC2` the reconciler keeps only the first
message (its `tool_use` t1 is answered), but the dropped second message
carried the `tool_result` for t1, so a second pass drops the first
message too: `reconcile (reconcile exC2)` is empty while
`reconcile exC2` is not — the reconciler is not idempotent. -/
theorem c2_not_idempotent_counterexample :
    cleanIncompleteToolCalls (cleanIncompleteToolCalls exC2) ≠ cleanIncompleteToolCalls exC2 := by
  intro h
  exact absurd (congrArg List.length h) (by decide)

/-- C2 amended: the reconciler is idempotent on conversations in which
no message carrying a `tool_use` block also carries a `tool_result`
block — then removed messages take no result ids with them, the
collected id set is unchanged, and the second pass filters with the
same predicate. -/
theorem c2_idempotent_amended :
    ∀ msgs : List ClaudeMessage,
      (∀ m ∈ msgs, ∀ bs, m.content = .blocks bs → bs.any isToolUseBlock = true →
        resultIdsOfMessage m = []) →
      cleanIncompleteToolCalls (cleanIncompleteToolCalls msgs) = cleanIncompleteToolCalls msgs := by
  intro msgs H
  have hdrop : ∀ m ∈ msgs, keepMessage (toolResultIds msgs) m = false → resultIdsOfMessage m = [] := by
    intro m hm hk
    obtain ⟨bs, hc, hany⟩ := keepMessage_false _ _ hk
    exact H m hm bs hc hany
  have hids : toolResultIds (msgs.filter (keepMessage (toolResultIds msgs))) = toolResultIds msgs :=
    toolResultIds_filter _ msgs hdrop
  show (msgs.filter (keepMessage (toolResultIds msgs))).filter
      (keepMessage (toolResultIds (msgs.filter (keepMessage (toolResultIds msgs))))) = _
  rw [hids]
  exact List.filter_eq_self.mpr fun a ha => (List.mem_filter.mp ha).2

/-- C2 witness: the amended idempotence applied to the variant of the
counterexample in which the `tool_result` lives in its own message. -/
theorem c2_idempotent_amended_witness :
    cleanIncompleteToolCalls (cleanIncompleteToolCalls exC2Separated) = cleanIncompleteToolCalls exC2Separated := by
  refine c2_idempotent_amended exC2Separated ?_
  intro m hm bs hc hany
  rcases List.mem_cons.mp hm with rfl | hm2
  · cases hc; rfl
  · rcases List.mem_cons.mp hm2 with rfl | hm3
    · cases hc
      simp [isToolUseBlock] at hany
    · simp at hm3

/-- C3: over any fully successful provider stream, the canonical events
are emitted frame by frame in arrival order, and the text and tool block
indices are each the run 0,1,2,… in emission order — monotone, never
reused, bumped once per emitted text delta and tool delta respectively.
For the spec's three-frame stream (text "Hi", tool call f with empty
arguments, end of stream) the text delta is addressed to text index 0,
the tool delta to tool index 0, in that relative order. -/
theorem c3_stream_order_and_indices :
    (∀ (frames : List OpenAIStreamResponse) (evs : List CanonEvent),
        convertStreamResponse frames = .ok evs →
        textIndices evs = List.range (textIndices evs).length ∧
        toolIndices evs = List.range (toolIndices evs).length) ∧
    convertStreamResponse [exFrameText, exFrameTool] =
      .ok [.textDelta 0 "Hi", .toolUseDelta 0 "f" (.obj [])] := by
  constructor
  · intro frames evs h
    obtain ⟨k, m, ht, hu⟩ := processProviderStream_indices frames 0 0 evs h
    constructor
    · rw [ht, List.length_range', List.range_eq_range']
    · rw [hu, List.length_range', List.range_eq_range']
  · rfl

/-- C3 witness: the general index property instantiated on the spec's
three-frame stream. -/
theorem c3_stream_order_and_indices_witness :
    textIndices [.textDelta 0 "Hi", .toolUseDelta 0 "f" (.obj [])] =
      List.range (textIndices [.textDelta 0 "Hi", .toolUseDelta 0 "f" (.obj [])]).length ∧
    toolIndices [.textDelta 0 "Hi", .toolUseDelta 0 "f" (.obj [])] =
      List.range (toolIndices [.textDelta 0 "Hi", .toolUseDelta 0 "f" (.obj [])]).length :=
  c3_stream_order_and_indices.1 [exFrameText, exFrameTool] _ rfl

/-- C4 counterexample: a response whose only choice has `finish_reason =
"length"` and a present-but-empty `tool_calls` list gets `stop_reason =
tool_use`, not the `max_tokens` the claim requires — `if
(message.tool_calls)` is a truthiness test and an empty array is truthy. -/
theorem c4_stop_reason_counterexample :
    (convertNormalResponse exC4).stop_reason = some .tool_use ∧
    (convertNormalResponse exC4).stop_reason ≠ some .max_tokens := by
  exact ⟨rfl, by decide⟩

/-- C4 amended: `stop_reason` is `tool_use` exactly when the first
choice's `tool_calls` field is present (even as an empty list); with the
field absent it is `max_tokens` when `finish_reason` is "length" and
`end_turn` otherwise. -/
theorem c4_stop_reason_amended :
    ∀ (openaiData : OpenAIResponse) (choice : OpenAIChoice) (rest : List OpenAIChoice),
      openaiData.choices = some (choice :: rest) →
      ((∃ calls, choice.message.tool_calls = some calls) →
          (convertNormalResponse openaiData).stop_reason = some .tool_use) ∧
      (choice.message.tool_calls = none → choice.finish_reason = some "length" →
          (convertNormalResponse openaiData).stop_reason = some .max_tokens) ∧
      (choice.message.tool_calls = none → choice.finish_reason ≠ some "length" →
          (convertNormalResponse openaiData).stop_reason = some .end_turn) := by
  intro openaiData choice rest h
  refine ⟨?_, ?_, ?_⟩
  · intro ⟨calls, hcalls⟩
    unfold convertNormalResponse
    rw [h]
    dsimp only
    rw [hcalls]
  · intro hcalls hfin
    unfold convertNormalResponse
    rw [h]
    dsimp only
    rw [hcalls, hfin]
    simp
  · intro hcalls hfin
    unfold convertNormalResponse
    rw [h]
    dsimp only
    rw [hcalls, if_neg hfin]

/-- C4 witness: with `tool_calls` absent and `finish_reason = "length"`
the canonical stop reason is `max_tokens` (and the other two branches at
the same input). -/
theorem c4_stop_reason_amended_witness :
    ((∃ calls, (OpenAIChoice.mk ⟨none, none⟩ (some "length")).message.tool_calls = some calls) →
        (convertNormalResponse ⟨some [⟨⟨none, none⟩, some "length"⟩], none⟩).stop_reason = some .tool_use) ∧
    ((OpenAIChoice.mk ⟨none, none⟩ (some "length")).message.tool_calls = none →
        (OpenAIChoice.mk ⟨none, none⟩ (some "length")).finish_reason = some "length" →
        (convertNormalResponse ⟨some [⟨⟨none, none⟩, some "length"⟩], none⟩).stop_reason = some .max_tokens) ∧
    ((OpenAIChoice.mk ⟨none, none⟩ (some "length")).message.tool_calls = none →
        (OpenAIChoice.mk ⟨none, none⟩ (some "length")).finish_reason ≠ some "length" →
        (convertNormalResponse ⟨some [⟨⟨none, none⟩, some "length"⟩], none⟩).stop_reason = some .end_turn) :=
  c4_stop_reason_amended ⟨some [⟨⟨none, none⟩, some "length"⟩], none⟩ ⟨⟨none, none⟩, some "length"⟩ [] rfl

/-- C5 counterexample: a streaming tool-call frame with name "f" and the
unparseable arguments string "not json" aborts the canonical stream with
a thrown parse error — the callback's `JSON.parse` has no handler, and
no empty object is substituted. -/
theorem c5_streaming_decode_counterexample :
    convertStreamResponse [exC5Frame] = .error "not json" := rfl

/-- C5 amended: argument-decode failure is recovered by substituting an
empty object only in the non-streaming mapper, where it is never fatal;
in the streaming path a tool-call frame carrying a name and a non-JSON
arguments string makes the translator callback throw, aborting the
stream (matching the documented parseable-arguments precondition). -/
theorem c5_argument_decode_amended :
    (∀ (tcid nm args : String) (fr : Option String) (usage : Option OpenAIUsage),
        args ≠ "" → Json.parse args = none → Json.parse (repairSingleQuotes args) = none →
        (convertNormalResponse ⟨some [⟨⟨none, some [⟨tcid, ⟨nm, args⟩⟩]⟩, fr⟩], usage⟩).content =
          [.toolUse tcid nm (.obj [])]) ∧
    (∀ (nm args : String), nm ≠ "" → args ≠ "" → Json.parse args = none →
        convertStreamChunk ⟨some [⟨⟨none, some [⟨some ⟨some nm, some args⟩⟩]⟩⟩]⟩ 0 0 = .error args) := by
  constructor
  · intro tcid nm args fr usage hne hp hp2
    unfold convertNormalResponse
    dsimp only
    unfold toolUseBlockOfCall parseToolArguments
    simp only [List.map_cons, List.map_nil, List.nil_append]
    rw [if_neg hne, hp]
    dsimp only
    rw [hp2]
  · intro nm args hnm hargs hp
    unfold convertStreamChunk
    dsimp only
    unfold processStreamToolCalls
    dsimp only
    rw [if_neg hnm, if_neg hargs, hp]

/-- C5 witness: the two recovery/abort behaviours at the concrete
unparseable arguments string "not json". -/
theorem c5_argument_decode_amended_witness :
    (convertNormalResponse ⟨some [⟨⟨none, some [⟨"c1", ⟨"f", "not json"⟩⟩]⟩, none⟩], none⟩).content =
      [.toolUse "c1" "f" (.obj [])] ∧
    convertStreamChunk ⟨some [⟨⟨none, some [⟨some ⟨some "f", some "not json"⟩⟩]⟩⟩]⟩ 0 0 =
      .error "not json" :=
  ⟨c5_argument_decode_amended.1 "c1" "f" "not json" none none (by decide) rfl rfl,
   c5_argument_decode_amended.2 "f" "not json" (by decide) (by decide) rfl⟩

/-- C6: decoding the single-quoted arguments string fails strict
parsing, succeeds after replacing single quotes with double quotes, and
the canonical tool-use input is the object with field a = 1; the failure
never reaches the client — the body still translates to a normal 200
canonical response. -/
theorem c6_single_quote_repair :
    Json.parse "\x7b'a': 1\x7d" = none ∧
    Json.parse (repairSingleQuotes "\x7b'a': 1\x7d") = some (.obj [("a", .num 1)]) ∧
    (convertNormalResponse exC6).content = [.toolUse "call_1" "f" (.obj [("a", .num 1)])] ∧
    (convertNormalResponse exC6).stop_reason = some .tool_use ∧
    convertToClaudeResponse ⟨200, some "application/json", .json exC6⟩ =
      .normal (convertNormalResponse exC6) 200 := by
  exact ⟨rfl, rfl, rfl, rfl, rfl⟩

/-- C7: a provider response outside the 2xx range is returned as-is —
same status, headers and body — with no translation attempted. -/
theorem c7_non_2xx_passthrough :
    ∀ r : ProviderResponse, responseOk r.status = false →
      convertToClaudeResponse r = .passthrough r := by
  intro r h
  unfold convertToClaudeResponse
  rw [h]
  rfl

/-- C7 witness: a 404 JSON body passes through untouched. -/
theorem c7_non_2xx_passthrough_witness :
    convertToClaudeResponse exC7 = .passthrough exC7 :=
  c7_non_2xx_passthrough exC7 rfl

/-- C8 counterexample: the claim quantifies over every erroring
`ToolResult` in the request mapper's input, but in `exC8` the single
message holding the erroring result (content "oops") also holds a
`tool_use` with no result anywhere, so the reconciler drops the whole
message: the mapped payload is empty and the "Tool execution error:
oops" text is folded nowhere. -/
theorem c8_error_result_counterexample :
    convertMessages exC8 = [] ∧
    exC8 = [⟨.user, .blocks [.toolUse "t1" "f" (.obj []), .toolResult "t2" (.str "oops") (some true)]⟩] :=
  ⟨rfl, rfl⟩

/-- C8 amended: for every erroring `ToolResult` inside a message that
survives reconciliation, no `role: "tool"` message is emitted for any
erroring result (every emitted tool message's id traces to a non-error
result of a surviving message), and the erroring content is folded into
the surviving message's joined text — as the interruption notice when
the content contains "Interrupted by user", else as a "Tool execution
error: {content}" line. An erroring result inside a dropped message is
discarded with it. -/
theorem c8_error_result_amended :
    ∀ (msgs : List ClaudeMessage) (m : ClaudeMessage) (bs : List ContentBlock)
      (tid : String) (c : ToolResultContent),
      m ∈ cleanIncompleteToolCalls msgs → m.content = .blocks bs →
      ContentBlock.toolResult tid c (some true) ∈ bs →
      (∀ out ∈ convertMessages msgs, out.role = "tool" →
          ∃ tcid, out.tool_call_id = some tcid ∧
            tcid ∈ successfulToolResultIds (cleanIncompleteToolCalls msgs)) ∧
      (∃ out ∈ convertMessages msgs, out.role = roleString m.role ∧
          ∃ txt, out.content = some txt ∧
            (if strIncludes (toolResultContentString c) interruptedMarker = true
             then strIncludes txt "The previous action was interrupted" = true
             else strIncludes txt ("Tool execution error: " ++ toolResultContentString c) = true)) := by
  intro msgs m bs tid c hm hc hb
  constructor
  · intro out hout hrole
    unfold convertMessages at hout
    obtain ⟨m2, hm2, hmem⟩ := exists_of_mem_convertMessagesAux _ _ out hout
    cases hc2 : m2.content with
    | str s =>
      unfold convertOneMessage at hmem
      rw [hc2] at hmem
      dsimp only at hmem
      rw [List.mem_singleton] at hmem
      subst hmem
      cases hr : m2.role <;> rw [hr] at hrole <;> simp [roleString] at hrole
    | blocks bs2 =>
      rw [convertOneMessage_blocks _ _ _ hc2] at hmem
      rcases List.mem_append.mp hmem with hmain | htool
      · by_cases hcond : ((bs2.filterMap (lineOfBlock (successfulToolResultIds msgs))).length > 0 ∨
            (bs2.filterMap (callOfBlock (successfulToolResultIds msgs))).length > 0)
        · have hcondb : (decide ((bs2.filterMap (lineOfBlock (successfulToolResultIds msgs))).length > 0) ||
              decide ((bs2.filterMap (callOfBlock (successfulToolResultIds msgs))).length > 0)) = true := by
            rcases hcond with h1 | h1 <;> simp [h1]
          rw [hcondb] at hmain
          simp only [if_true] at hmain
          rw [List.mem_singleton] at hmain
          subst hmain
          cases hr : m2.role <;> rw [hr] at hrole <;> simp [roleString] at hrole
        · have hcondb : (decide ((bs2.filterMap (lineOfBlock (successfulToolResultIds msgs))).length > 0) ||
              decide ((bs2.filterMap (callOfBlock (successfulToolResultIds msgs))).length > 0)) = false := by
            push_neg at hcond
            simp [hcond.1, hcond.2]
          rw [hcondb] at hmain
          simp at hmain
      · rcases List.mem_map.mp htool with ⟨tr, htr, rfl⟩
        refine ⟨tr.tool_call_id, rfl, ?_⟩
        rcases List.mem_filterMap.mp htr with ⟨b, hbmem, hbres⟩
        cases b with
        | text t => unfold resultOfBlock at hbres; cases hbres
        | toolUse id2 nm2 inp2 => unfold resultOfBlock at hbres; cases hbres
        | toolResult tid2 c2 isErr2 =>
          unfold resultOfBlock at hbres
          dsimp only at hbres
          by_cases herr : isErr2 = some true
          · rw [if_pos herr] at hbres; cases hbres
          · rw [if_neg herr] at hbres
            cases hbres
            exact mem_successfulToolResultIds _ m2 bs2 tid2 c2 isErr2 hm2 hc2 hbmem herr
  · have hline : lineOfBlock (successfulToolResultIds msgs) (ContentBlock.toolResult tid c (some true)) =
        some (if strIncludes (toolResultContentString c) interruptedMarker then feedbackLine
              else toolErrorLine (toolResultContentString c)) := by
      simp [lineOfBlock]
    have hmemline : (if strIncludes (toolResultContentString c) interruptedMarker then feedbackLine
          else toolErrorLine (toolResultContentString c)) ∈
        bs.filterMap (lineOfBlock (successfulToolResultIds msgs)) :=
      List.mem_filterMap.mpr ⟨_, hb, hline⟩
    have hlen : (bs.filterMap (lineOfBlock (successfulToolResultIds msgs))).length > 0 :=
      List.length_pos.mpr (List.ne_nil_of_mem hmemline)
    refine ⟨⟨roleString m.role,
        if (bs.filterMap (lineOfBlock (successfulToolResultIds msgs))).length > 0 then
          some (joinSep newlineString (bs.filterMap (lineOfBlock (successfulToolResultIds msgs))))
        else none,
        if (bs.filterMap (callOfBlock (successfulToolResultIds msgs))).length > 0 then
          some (bs.filterMap (callOfBlock (successfulToolResultIds msgs)))
        else none,
        none⟩, ?_, rfl, ?_⟩
    · unfold convertMessages
      apply mem_convertMessagesAux_of _ _ m _ hm
      rw [convertOneMessage_blocks _ _ _ hc]
      apply List.mem_append_left
      have hcondb : (decide ((bs.filterMap (lineOfBlock (successfulToolResultIds msgs))).length > 0) ||
          decide ((bs.filterMap (callOfBlock (successfulToolResultIds msgs))).length > 0)) = true := by
        simp [hlen]
      rw [hcondb]
      simp
    · refine ⟨joinSep newlineString (bs.filterMap (lineOfBlock (successfulToolResultIds msgs))), ?_, ?_⟩
      · dsimp only
        rw [if_pos hlen]
      · by_cases hmark : strIncludes (toolResultContentString c) interruptedMarker = true
        · rw [if_pos hmark]
          rw [if_pos hmark] at hmemline
          exact strIncludes_joinSep _ _ _ _ hmemline strIncludes_feedback
        · rw [if_neg hmark]
          rw [if_neg (by simpa using hmark)] at hmemline
          exact strIncludes_joinSep _ _ _ _ hmemline (strIncludes_toolError _)

/-- C8 witness: a surviving assistant message with an erroring result
(content "boom", no interruption marker) folds a "Tool execution error:
boom" line into its text, and no tool message carries an error result
id. -/
theorem c8_error_result_amended_witness :
    (∀ out ∈ convertMessages exC8Survivor, out.role = "tool" →
        ∃ tcid, out.tool_call_id = some tcid ∧
          tcid ∈ successfulToolResultIds (cleanIncompleteToolCalls exC8Survivor)) ∧
    (∃ out ∈ convertMessages exC8Survivor,
        out.role = roleString Role.assistant ∧
        ∃ txt, out.content = some txt ∧
          (if strIncludes (toolResultContentString (.str "boom")) interruptedMarker = true
           then strIncludes txt "The previous action was interrupted" = true
           else strIncludes txt ("Tool execution error: " ++ toolResultContentString (.str "boom")) = true)) := by
  refine c8_error_result_amended exC8Survivor
    ⟨.assistant, .blocks [.toolResult "t3" (.str "boom") (some true), .text "note"]⟩
    [.toolResult "t3" (.str "boom") (some true), .text "note"] "t3" (.str "boom") ?_ rfl ?_
  · rw [show cleanIncompleteToolCalls exC8Survivor =
      [⟨.assistant, .blocks [.toolResult "t3" (.str "boom") (some true), .text "note"]⟩] from rfl]
    exact List.mem_cons_self _ _
  · exact List.mem_cons_self _ _

/-- C9: for a message surviving reconciliation, the emitted combined
provider message carries exactly one `tool_calls` entry — id, name, and
`JSON.stringify`ed input — per `tool_use` block whose id has a
successful result, and none for the others; each `tool_use` without a
successful result instead contributes a "User interrupted: {name}
operation was cancelled by user" line to the message's joined text. -/
theorem c9_tool_use_mapping :
    ∀ (msgs : List ClaudeMessage) (m : ClaudeMessage) (bs : List ContentBlock),
      m ∈ cleanIncompleteToolCalls msgs → m.content = .blocks bs →
      (bs.filterMap (lineOfBlock (successfulToolResultIds msgs)) ≠ [] ∨
        bs.filterMap (callOfBlock (successfulToolResultIds msgs)) ≠ []) →
      ∃ out ∈ convertMessages msgs,
        out.role = roleString m.role ∧
        out.tool_calls = (if bs.filterMap (callOfBlock (successfulToolResultIds msgs)) = []
                          then none
                          else some (bs.filterMap (callOfBlock (successfulToolResultIds msgs)))) ∧
        (∀ id nm inp, ContentBlock.toolUse id nm inp ∈ bs →
          (successfulToolResultIds msgs).contains id = false →
          ∃ txt, out.content = some txt ∧
            strIncludes txt ("User interrupted: " ++ nm ++ " operation was cancelled by user") = true) := by
  intro msgs m bs hm hc hne
  have hcondb : (decide ((bs.filterMap (lineOfBlock (successfulToolResultIds msgs))).length > 0) ||
      decide ((bs.filterMap (callOfBlock (successfulToolResultIds msgs))).length > 0)) = true := by
    rcases hne with h1 | h1 <;> simp [List.length_pos.mpr h1]
  refine ⟨⟨roleString m.role,
      if (bs.filterMap (lineOfBlock (successfulToolResultIds msgs))).length > 0 then
        some (joinSep newlineString (bs.filterMap (lineOfBlock (successfulToolResultIds msgs))))
      else none,
      if (bs.filterMap (callOfBlock (successfulToolResultIds msgs))).length > 0 then
        some (bs.filterMap (callOfBlock (successfulToolResultIds msgs)))
      else none,
      none⟩, ?_, rfl, ?_, ?_⟩
  · unfold convertMessages
    apply mem_convertMessagesAux_of _ _ m _ hm
    rw [convertOneMessage_blocks _ _ _ hc]
    apply List.mem_append_left
    rw [hcondb]
    simp
  · by_cases hcalls : bs.filterMap (callOfBlock (successfulToolResultIds msgs)) = []
    · rw [if_pos hcalls]
      dsimp only
      rw [if_neg (by simp [hcalls])]
    · rw [if_neg hcalls]
      dsimp only
      rw [if_pos (List.length_pos.mpr hcalls)]
  · intro id nm inp hbmem hid
    have hline : lineOfBlock (successfulToolResultIds msgs) (ContentBlock.toolUse id nm inp) =
        some (interruptedLine nm) := by
      unfold lineOfBlock
      dsimp only
      rw [if_neg (by simpa using hid)]
    have hmemline : interruptedLine nm ∈ bs.filterMap (lineOfBlock (successfulToolResultIds msgs)) :=
      List.mem_filterMap.mpr ⟨_, hbmem, hline⟩
    have hlen : (bs.filterMap (lineOfBlock (successfulToolResultIds msgs))).length > 0 :=
      List.length_pos.mpr (List.ne_nil_of_mem hmemline)
    refine ⟨joinSep newlineString (bs.filterMap (lineOfBlock (successfulToolResultIds msgs))), ?_, ?_⟩
    · dsimp only
      rw [if_pos hlen]
    · exact strIncludes_joinSep _ _ _ _ hmemline (strIncludes_interrupted nm)

/-- C9 witness: in `exC9`, t1 has a successful result and t2 only an
erroring one; the emitted assistant message carries exactly the t1 tool
call and a "User interrupted: write_file operation was cancelled by
user" text line. -/
theorem c9_tool_use_mapping_witness :
    ∃ out ∈ convertMessages exC9,
      out.role = roleString exC9Assistant.role ∧
      out.tool_calls = (if [ContentBlock.toolUse "t1" "read_file" (.obj [("path", .str "a")]),
                            ContentBlock.toolUse "t2" "write_file" (.obj [])].filterMap
                              (callOfBlock (successfulToolResultIds exC9)) = []
                        then none
                        else some ([ContentBlock.toolUse "t1" "read_file" (.obj [("path", .str "a")]),
                                    ContentBlock.toolUse "t2" "write_file" (.obj [])].filterMap
                              (callOfBlock (successfulToolResultIds exC9)))) ∧
      (∀ id nm inp, ContentBlock.toolUse id nm inp ∈
          [ContentBlock.toolUse "t1" "read_file" (.obj [("path", .str "a")]),
           ContentBlock.toolUse "t2" "write_file" (.obj [])] →
        (successfulToolResultIds exC9).contains id = false →
        ∃ txt, out.content = some txt ∧
          strIncludes txt ("User interrupted: " ++ nm ++ " operation was cancelled by user") = true) := by
  refine c9_tool_use_mapping exC9 exC9Assistant
    [ContentBlock.toolUse "t1" "read_file" (.obj [("path", .str "a")]),
     ContentBlock.toolUse "t2" "write_file" (.obj [])] ?_ rfl ?_
  · rw [show cleanIncompleteToolCalls exC9 = exC9 from rfl]
    exact List.mem_cons_self _ _
  · right
    intro h
    exact absurd (congrArg List.length h) (by decide)

/-- C10: a successful non-streaming response with absent or empty
`choices` maps to an empty canonical content sequence with no
`stop_reason` field at all, while usage is still copied when present. -/
theorem c10_empty_choices :
    ∀ openaiData : OpenAIResponse,
      openaiData.choices = none ∨ openaiData.choices = some [] →
      (convertNormalResponse openaiData).content = [] ∧
      (convertNormalResponse openaiData).stop_reason = none ∧
      (convertNormalResponse openaiData).usage = usageOf openaiData := by
  intro openaiData h
  rcases h with h | h <;>
    · unfold convertNormalResponse
      rw [h]
      exact ⟨rfl, rfl, rfl⟩

/-- C10 witness: no choices but usage present — empty content, absent
stop reason, usage carried over. -/
theorem c10_empty_choices_witness :
    (convertNormalResponse exC10).content = [] ∧
    (convertNormalResponse exC10).stop_reason = none ∧
    (convertNormalResponse exC10).usage = usageOf exC10 :=
  c10_empty_choices exC10 (Or.inl rfl)

end ClaudeLocalProxy
